import Mathlib

/-!
Verification of the proof-of-stake kernel validation code in src/src/pos.cpp
(ComputeStakeModifier, CheckCoinStakeTimestamp, CheckStakeBlockTimestamp,
CheckStakeKernelHash, IsConfirmedInNPrevBlocks, CheckProofOfStake, the two
CheckKernel overloads and CacheKernel) against its natural-language
specification.

Modelling conventions.  Machine integers are Nat (unsigned) or Int (signed);
256-bit arithmetic reduces modulo 2 ^ 256 where arith_uint256 wraps.  The
cryptographic hash primitive (CHashWriter / Hash, an external collaborator) is
a parameter H : List Nat -> Nat from the serialized byte stream to the digest
value; serialization itself is concrete (little-endian bytes), so the order of
serialized fields is visible.  arith_uint256.SetCompact (external) is a
parameter setCompact : Nat -> Nat x Bool x Bool giving the decoded target and
the negative / overflow flags; the real decoder's target is below 2 ^ 256.
Consensus parameters (Params().GetConsensus()) are an explicit record.  The
UTXO view is a function COutPoint -> Option Coin standing for
CCoinsViewCache.GetCoin; the script engine is a parameter returning Bool.
-/

/-- Little-endian serialization of a value into w bytes, as produced by the
CDataStream serializers feeding CHashWriter. -/
def serLE (w : Nat) (x : Nat) : List Nat :=
  (List.range w).map (fun i => x / 2 ^ (8 * i) % 256)

/-- Serialization of a uint256 value: 32 little-endian bytes. -/
def ser256 (x : Nat) : List Nat := serLE 32 x

/-- Serialization of a 32-bit unsigned value: 4 little-endian bytes. -/
def ser32 (x : Nat) : List Nat := serLE 4 x

/-- COutPoint from primitives/transaction.h: the (txid, output index) pair
identifying an output; GetHash() is the field hash, GetN() the field n. -/
structure COutPoint where
  hash : Nat
  n : Nat
  deriving DecidableEq, Repr

/-- CStakeCache from pos.h: the (creation-block timestamp, amount) pair
stored by CacheKernel. -/
structure CStakeCache where
  blockFromTime : Nat
  amount : Int
  deriving DecidableEq, Repr

/-- Coin from coins.h (external collaborator), as pos.cpp reads it: creation
height, creation-block timestamp, the output value, and the spent flag
returned by IsSpent(); the scriptPubKey is consumed only by the abstract
script engine, which receives the whole coin. -/
structure Coin where
  nHeight : Int
  nTime : Nat
  outValue : Int
  spent : Bool
  deriving DecidableEq, Repr

/-- Per-block data of a CBlockIndex entry (chain.h, external collaborator):
height, header time, the stored stake modifier, and the on-disk position
fields nDataPos / nFile read by IsConfirmedInNPrevBlocks. -/
structure BlockData where
  nHeight : Int
  nTime : Nat
  nStakeModifier : Nat
  nDataPos : Nat
  nFile : Int
  deriving DecidableEq, Repr

/-- CBlockIndex chain: root is a block whose pprev pointer is null, link
carries the previous block the pointer reaches. -/
inductive CBlockIndex : Type where
  | root (data : BlockData)
  | link (data : BlockData) (prev : CBlockIndex)
  deriving DecidableEq, Repr

/-- Data record of a block. -/
def CBlockIndex.data : CBlockIndex → BlockData
  | .root d => d
  | .link d _ => d

/-- Previous-block pointer. -/
def CBlockIndex.pprev : CBlockIndex → Option CBlockIndex
  | .root _ => none
  | .link _ p => some p

/-- Height of a block. -/
def CBlockIndex.nHeight (b : CBlockIndex) : Int := b.data.nHeight

/-- Header timestamp of a block. -/
def CBlockIndex.nTime (b : CBlockIndex) : Nat := b.data.nTime

/-- Stake modifier stored in a block-index entry. -/
def CBlockIndex.nStakeModifier (b : CBlockIndex) : Nat := b.data.nStakeModifier

/-- On-disk data position of a block. -/
def CBlockIndex.nDataPos (b : CBlockIndex) : Nat := b.data.nDataPos

/-- On-disk file number of a block. -/
def CBlockIndex.nFile (b : CBlockIndex) : Int := b.data.nFile

/-- Modelled from the spec: the chain-index collaborator operation
ancestor_at_height(block, height) -> Option BlockRef (CBlockIndex::GetAncestor,
declared in chain.h, which is not among the staged sources).  It walks the
parent links down to the ancestor at the requested height and yields none when
the requested height is above the block's own height or negative. -/
def CBlockIndex.GetAncestor : CBlockIndex → Int → Option CBlockIndex
  | .root d, height =>
    if height > d.nHeight ∨ height < 0 then none
    else if d.nHeight = height then some (.root d)
    else none
  | .link d p, height =>
    if height > d.nHeight ∨ height < 0 then none
    else if d.nHeight = height then some (.link d p)
    else CBlockIndex.GetAncestor p height

/-- Ancestor reached by following exactly k parent links, when the chain is
that long. -/
def ancestorAtDepth : CBlockIndex → Nat → Option CBlockIndex
  | b, 0 => some b
  | .root _, _ + 1 => none
  | .link _ p, k + 1 => ancestorAtDepth p k

/-- Heights decrease by exactly one per parent link, as they do in a real
block index. -/
def wfChain : CBlockIndex → Bool
  | .root _ => true
  | .link d p => (d.nHeight == p.nHeight + 1) && wfChain p

/-- Consensus parameters read through Params().GetConsensus() (external):
minimum stake confirmations, the stake timestamp granularity mask, and the
protocol-version predicate IsProtocolV2 on the block time. -/
structure ConsensusParams where
  nStakeMinConfirmations : Int
  nStakeTimestampMask : Nat
  isProtocolV2 : Int → Bool

/-- ComputeStakeModifier (pos.cpp lines 29-36): zero when pindexPrev is null,
otherwise the hash of the serialized kernel followed by the parent block's
stake modifier. -/
def ComputeStakeModifier (H : List Nat → Nat) (pindexPrev : Option CBlockIndex)
    (kernel : Nat) : Nat :=
  match pindexPrev with
  | none => 0
  | some p => H (ser256 kernel ++ ser256 p.nStakeModifier)

/-- CheckCoinStakeTimestamp (pos.cpp lines 39-45).  Timestamps are int64. -/
def CheckCoinStakeTimestamp (params : ConsensusParams)
    (nTimeBlock nTimeTx : Int) : Bool :=
  if params.isProtocolV2 nTimeBlock then
    decide (nTimeBlock = nTimeTx) &&
      decide (Int.land nTimeTx (Int.ofNat params.nStakeTimestampMask) = 0)
  else decide (nTimeBlock = nTimeTx)

/-- CheckStakeBlockTimestamp (pos.cpp lines 48-50). -/
def CheckStakeBlockTimestamp (params : ConsensusParams) (nTimeBlock : Int) : Bool :=
  CheckCoinStakeTimestamp params nTimeBlock nTimeBlock

/-- Byte stream hashed by CheckStakeKernelHash (pos.cpp lines 97-100): stake
modifier, then blockFrom time, outpoint hash, outpoint index and candidate
time, in the order the CHashWriter stream receives them. -/
def stakeKernelPreimage (nStakeModifier : Nat) (nBlockFromTime : Nat)
    (prevout : COutPoint) (nTime : Nat) : List Nat :=
  ser256 nStakeModifier ++ ser32 nBlockFromTime ++ ser256 prevout.hash ++
    ser32 prevout.n ++ ser32 nTime

/-- CheckStakeKernelHash (pos.cpp lines 71-114).  The weighted target is the
arith_uint256 product, i.e. reduced modulo 2 ^ 256, of the decoded target and
the amount converted from int64 to uint64. -/
def CheckStakeKernelHash (H : List Nat → Nat)
    (setCompact : Nat → Nat × Bool × Bool) (pindexPrev : CBlockIndex)
    (nBits : Nat) (nBlockFromTime : Nat) (prevOutAmount : Int)
    (prevout : COutPoint) (nTime : Nat) : Bool :=
  if nTime < nBlockFromTime then false
  else
    let dec := setCompact nBits
    if dec.2.1 || dec.2.2 || decide (dec.1 = 0) then false
    else if prevOutAmount = 0 then false
    else
      let bnWeight : Nat := (prevOutAmount % (2 : Int) ^ 64).toNat
      let bnTarget : Nat := dec.1 * bnWeight % 2 ^ 256
      let hashProofOfStake :=
        H (stakeKernelPreimage pindexPrev.nStakeModifier nBlockFromTime prevout nTime)
      if hashProofOfStake > bnTarget then false else true

/-- CDiskTxPos (external, from the transaction index): file number and data
position of a transaction on disk. -/
structure CDiskTxPos where
  nFile : Int
  nPos : Nat
  deriving DecidableEq, Repr

/-- Loop of IsConfirmedInNPrevBlocks (pos.cpp lines 117-122): walk the pprev
pointers while the block exists and its height distance from the start block
is below nMaxDepth, returning that distance at the first block whose data
position and file both match. -/
def confirmedScan (txindex : CDiskTxPos) (fromHeight : Int) (nMaxDepth : Int) :
    CBlockIndex → Option Int
  | .root d =>
    if fromHeight - d.nHeight < nMaxDepth then
      if d.nDataPos = txindex.nPos ∧ d.nFile = txindex.nFile then
        some (fromHeight - d.nHeight)
      else none
    else none
  | .link d p =>
    if fromHeight - d.nHeight < nMaxDepth then
      if d.nDataPos = txindex.nPos ∧ d.nFile = txindex.nFile then
        some (fromHeight - d.nHeight)
      else confirmedScan txindex fromHeight nMaxDepth p
    else none

/-- IsConfirmedInNPrevBlocks (pos.cpp lines 116-125); some depth stands for a
true return with the nActualDepth out-parameter set to that depth. -/
def IsConfirmedInNPrevBlocks (txindex : CDiskTxPos) (pindexFrom : CBlockIndex)
    (nMaxDepth : Int) : Option Int :=
  confirmedScan txindex pindexFrom.nHeight nMaxDepth pindexFrom

/-- CTxIn as pos.cpp reads it: the referenced outpoint plus the opaque
scriptSig blob consumed only by the abstract script engine. -/
structure CTxIn where
  prevout : COutPoint
  scriptSig : Nat
  deriving DecidableEq, Repr

/-- CTransaction as pos.cpp reads it: the IsCoinStake() shape predicate
(consensus-defined, external) and the first input vin[0], the only input the
file accesses. -/
structure CTransaction where
  isCoinStake : Bool
  vin0 : CTxIn
  deriving DecidableEq, Repr

/-- CheckProofOfStake (pos.cpp lines 128-154).  The result models the bool
return paired with the DoS score given to CValidationState: (false, 0) for a
plain error return, (false, s) for state.DoS(s, ...), and (true, 0) for
acceptance.  verifyScript models VerifyScript with the
TransactionSignatureChecker (external script engine). -/
def CheckProofOfStake (H : List Nat → Nat)
    (setCompact : Nat → Nat × Bool × Bool) (params : ConsensusParams)
    (verifyScript : CTxIn → CTransaction → Coin → Bool)
    (pindexPrev : CBlockIndex) (tx : CTransaction) (nBits : Nat)
    (nTimeBlock : Nat) (view : COutPoint → Option Coin) : Bool × Nat :=
  if !tx.isCoinStake then (false, 0)
  else
    match view tx.vin0.prevout with
    | none => (false, 100)
    | some coinPrev =>
      if pindexPrev.nHeight + 1 - coinPrev.nHeight < params.nStakeMinConfirmations then
        (false, 100)
      else if !verifyScript tx.vin0 tx coinPrev then (false, 100)
      else if !CheckStakeKernelHash H setCompact pindexPrev nBits coinPrev.nTime
          coinPrev.outValue tx.vin0.prevout nTimeBlock then
        (false, 1)
      else (true, 0)

/-- Lookup in the stake cache, modelling std::map.find on the map from
COutPoint to CStakeCache. -/
def lookupCache : List (COutPoint × CStakeCache) → COutPoint → Option CStakeCache
  | [], _ => none
  | e :: rest, k => if e.1 = k then some e.2 else lookupCache rest k

/-- UTXO view built by CheckKernel (pos.cpp lines 164-165): a CCoinsViewCache
over a freshly constructed empty CCoinsView, whose GetCoin fails on every
outpoint. -/
def emptyView : COutPoint → Option Coin := fun _ => none

/-- Cache-miss branch of the cached CheckKernel (pos.cpp lines 167-182),
parameterized by the UTXO view those lines query; CheckKernelWithCache
instantiates it with the freshly constructed emptyView of lines 164-165. -/
def CheckKernelMiss (H : List Nat → Nat)
    (setCompact : Nat → Nat × Bool × Bool) (params : ConsensusParams)
    (view : COutPoint → Option Coin) (pindexPrev : CBlockIndex) (nBits : Nat)
    (nTime : Nat) (prevout : COutPoint) : Bool :=
  match view prevout with
  | none => false
  | some coinPrev =>
    if pindexPrev.nHeight + 1 - coinPrev.nHeight < params.nStakeMinConfirmations then
      false
    else
      match pindexPrev.GetAncestor coinPrev.nHeight with
      | none => false
      | some blockFrom =>
        if coinPrev.spent then false
        else
          CheckStakeKernelHash H setCompact pindexPrev nBits blockFrom.nTime
            coinPrev.outValue prevout nTime

/-- Cached CheckKernel overload (pos.cpp lines 161-192).  The pBlockTime
out-parameter, written on a cache hit, carries no part of the verdict and is
omitted. -/
def CheckKernelWithCache (H : List Nat → Nat)
    (setCompact : Nat → Nat × Bool × Bool) (params : ConsensusParams)
    (pindexPrev : CBlockIndex) (nBits : Nat) (nTime : Nat)
    (prevout : COutPoint) (cache : List (COutPoint × CStakeCache)) : Bool :=
  match lookupCache cache prevout with
  | none => CheckKernelMiss H setCompact params emptyView pindexPrev nBits nTime prevout
  | some stake =>
    CheckStakeKernelHash H setCompact pindexPrev nBits stake.blockFromTime
      stake.amount prevout nTime

/-- Uncached CheckKernel overload (pos.cpp lines 156-159): delegates to the
cached overload with an empty temporary cache. -/
def CheckKernel (H : List Nat → Nat) (setCompact : Nat → Nat × Bool × Bool)
    (params : ConsensusParams) (pindexPrev : CBlockIndex) (nBits : Nat)
    (nTimeBlock : Nat) (prevout : COutPoint) : Bool :=
  CheckKernelWithCache H setCompact params pindexPrev nBits nTimeBlock prevout []

/-- CacheKernel (pos.cpp lines 194-213), returning the updated cache; the
successful path appends the new entry, modelling std::map.insert of a key
that is not yet present. -/
def CacheKernel (params : ConsensusParams)
    (cache : List (COutPoint × CStakeCache)) (prevout : COutPoint)
    (pindexPrev : CBlockIndex) (view : COutPoint → Option Coin) :
    List (COutPoint × CStakeCache) :=
  match lookupCache cache prevout with
  | some _ => cache
  | none =>
    match view prevout with
    | none => cache
    | some coinPrev =>
      if pindexPrev.nHeight + 1 - coinPrev.nHeight < params.nStakeMinConfirmations then
        cache
      else
        match pindexPrev.GetAncestor coinPrev.nHeight with
        | none => cache
        | some blockFrom =>
          cache ++ [(prevout, ⟨blockFrom.nTime, coinPrev.outValue⟩)]

/-- Lookup in an appended cache still finds an entry of the left part. -/
theorem lookupCache_append_of_some {xs : List (COutPoint × CStakeCache)}
    {k : COutPoint} {v : CStakeCache} (ys : List (COutPoint × CStakeCache))
    (h : lookupCache xs k = some v) : lookupCache (xs ++ ys) k = some v := by
  induction xs with
  | nil => simp [lookupCache] at h
  | cons e rest ih =>
    by_cases he : e.1 = k
    · have h2 : e.2 = v := by simpa [lookupCache, he] using h
      simp [lookupCache, he, h2]
    · have h' : lookupCache rest k = some v := by
        simpa [lookupCache, he] using h
      simpa [lookupCache, he] using ih h'

/-- C7: ComputeStakeModifier returns the all-zero value for an absent parent,
otherwise the hash of the serialized kernel hash followed by the parent
block's stake modifier, and the non-genesis result depends only on the kernel
and the parent's stake modifier. -/
theorem computeStakeModifier_spec (H : List Nat → Nat) (kernel : Nat) :
    ComputeStakeModifier H none kernel = 0 ∧
    (∀ p : CBlockIndex, ComputeStakeModifier H (some p) kernel =
      H (ser256 kernel ++ ser256 p.nStakeModifier)) ∧
    (∀ p q : CBlockIndex, p.nStakeModifier = q.nStakeModifier →
      ComputeStakeModifier H (some p) kernel =
        ComputeStakeModifier H (some q) kernel) := by
  refine ⟨rfl, fun p => rfl, fun p q h => ?_⟩
  simp [ComputeStakeModifier, h]

/-- C8: under the pre-upgrade protocol CheckCoinStakeTimestamp holds exactly
when the block and transaction timestamps are equal; under the post-upgrade
protocol exactly when they are equal and the transaction timestamp masked by
the stake timestamp granularity mask is zero; and CheckStakeBlockTimestamp t
equals CheckCoinStakeTimestamp t t for every t. -/
theorem checkCoinStakeTimestamp_spec (params : ConsensusParams)
    (nTimeBlock nTimeTx : Int) :
    (params.isProtocolV2 nTimeBlock = false →
      (CheckCoinStakeTimestamp params nTimeBlock nTimeTx = true ↔
        nTimeBlock = nTimeTx)) ∧
    (params.isProtocolV2 nTimeBlock = true →
      (CheckCoinStakeTimestamp params nTimeBlock nTimeTx = true ↔
        nTimeBlock = nTimeTx ∧
          Int.land nTimeTx (Int.ofNat params.nStakeTimestampMask) = 0)) ∧
    (∀ t : Int, CheckStakeBlockTimestamp params t =
      CheckCoinStakeTimestamp params t t) := by
  refine ⟨fun h => ?_, fun h => ?_, fun t => rfl⟩ <;>
    simp [CheckCoinStakeTimestamp, h]

/-- C5: CheckStakeKernelHash rejects, for every hash collaborator, whenever
the candidate time precedes the coin creation time, or the compact decode is
negative, overflowed or zero, or the amount is zero. -/
theorem checkStakeKernelHash_precondition_reject (H : List Nat → Nat)
    (setCompact : Nat → Nat × Bool × Bool) (pindexPrev : CBlockIndex)
    (nBits nBlockFromTime : Nat) (prevOutAmount : Int) (prevout : COutPoint)
    (nTime : Nat)
    (h : nTime < nBlockFromTime ∨ (setCompact nBits).2.1 = true ∨
      (setCompact nBits).2.2 = true ∨ (setCompact nBits).1 = 0 ∨
      prevOutAmount = 0) :
    CheckStakeKernelHash H setCompact pindexPrev nBits nBlockFromTime
      prevOutAmount prevout nTime = false := by
  rcases h with h | h | h | h | h <;> simp [CheckStakeKernelHash, h]

/-- Witness for checkStakeKernelHash_precondition_reject at a concrete input
with the candidate time before the creation time. -/
theorem checkStakeKernelHash_precondition_reject_witness :
    (3 : Nat) < 5 ∧
    CheckStakeKernelHash (fun _ => 0) (fun _ => (1, false, false))
      (.root ⟨0, 0, 0, 0, 0⟩) 0 5 1 ⟨0, 0⟩ 3 = false :=
  ⟨by decide,
    checkStakeKernelHash_precondition_reject _ _ _ _ _ _ _ _
      (Or.inl (by decide))⟩

/-- C2: the empty view of the cache-miss branch yields no coin for any
outpoint, so the cached CheckKernel returns false on every cache miss, and
the uncached CheckKernel overload, which delegates with an empty temporary
cache, returns false on every input. -/
theorem checkKernel_cacheMiss_false (H : List Nat → Nat)
    (setCompact : Nat → Nat × Bool × Bool) (params : ConsensusParams)
    (pindexPrev : CBlockIndex) (nBits nTime : Nat) (prevout : COutPoint)
    (cache : List (COutPoint × CStakeCache))
    (h : lookupCache cache prevout = none) :
    emptyView prevout = none ∧
    CheckKernelWithCache H setCompact params pindexPrev nBits nTime prevout
      cache = false ∧
    CheckKernel H setCompact params pindexPrev nBits nTime prevout = false := by
  refine ⟨rfl, ?_, ?_⟩
  · simp [CheckKernelWithCache, h, CheckKernelMiss, emptyView]
  · simp [CheckKernel, CheckKernelWithCache, lookupCache, CheckKernelMiss,
      emptyView]

/-- Witness for checkKernel_cacheMiss_false at a concrete input with an empty
cache. -/
theorem checkKernel_cacheMiss_false_witness :
    lookupCache [] ⟨0, 0⟩ = none ∧
    (emptyView ⟨0, 0⟩ = none ∧
      CheckKernelWithCache (fun _ => 0) (fun _ => (1, false, false))
        ⟨1, 0, fun _ => false⟩ (.root ⟨0, 0, 0, 0, 0⟩) 0 0 ⟨0, 0⟩ [] = false ∧
      CheckKernel (fun _ => 0) (fun _ => (1, false, false))
        ⟨1, 0, fun _ => false⟩ (.root ⟨0, 0, 0, 0, 0⟩) 0 0 ⟨0, 0⟩ = false) :=
  ⟨rfl,
    checkKernel_cacheMiss_false (fun _ => 0) (fun _ => (1, false, false))
      ⟨1, 0, fun _ => false⟩ (.root ⟨0, 0, 0, 0, 0⟩) 0 0 ⟨0, 0⟩ [] rfl⟩

/-- C1: on the same chain state, the cached CheckKernel with the cache
populated for the prevout accepts while the uncached CheckKernel rejects the
very same input, because the uncached path reads the freshly constructed
empty view: caching does change the outcome. -/
theorem checkKernel_cached_uncached_disagree :
    CheckKernelWithCache (fun _ => 0) (fun _ => (1, false, false))
      ⟨1, 0, fun _ => false⟩ (.root ⟨0, 0, 0, 0, 0⟩) 0 0 ⟨0, 0⟩
      [(⟨0, 0⟩, ⟨0, 1⟩)] = true ∧
    CheckKernel (fun _ => 0) (fun _ => (1, false, false))
      ⟨1, 0, fun _ => false⟩ (.root ⟨0, 0, 0, 0, 0⟩) 0 0 ⟨0, 0⟩ = false := by
  exact ⟨rfl, rfl⟩

/-- C3 (amended): when the timestamp, decode and nonzero-amount preconditions
pass, CheckStakeKernelHash accepts exactly when the digest, the hash of the
modifier, coin-creation time, outpoint hash, outpoint index and candidate
time serialized in that order, is less than or equal to the arith_uint256
product (reduced modulo 2 ^ 256) of the decoded target and the amount
converted to unsigned 64-bit. -/
theorem checkStakeKernelHash_accept_iff (H : List Nat → Nat)
    (setCompact : Nat → Nat × Bool × Bool) (pindexPrev : CBlockIndex)
    (nBits nBlockFromTime : Nat) (prevOutAmount : Int) (prevout : COutPoint)
    (nTime : Nat) (t : Nat) (hts : ¬ nTime < nBlockFromTime)
    (hsc : setCompact nBits = (t, false, false)) (ht : t ≠ 0)
    (ha : prevOutAmount ≠ 0) :
    (CheckStakeKernelHash H setCompact pindexPrev nBits nBlockFromTime
        prevOutAmount prevout nTime = true ↔
      H (stakeKernelPreimage pindexPrev.nStakeModifier nBlockFromTime prevout
          nTime) ≤
        t * (prevOutAmount % (2 : Int) ^ 64).toNat % 2 ^ 256) := by
  simp only [CheckStakeKernelHash, hsc, if_neg hts, if_neg ha]
  simp [ht, Nat.not_lt]

/-- Witness for checkStakeKernelHash_accept_iff at a concrete input where the
digest meets the weighted target. -/
theorem checkStakeKernelHash_accept_iff_witness :
    CheckStakeKernelHash (fun _ => 0) (fun _ => (1, false, false))
      (.root ⟨0, 0, 0, 0, 0⟩) 0 0 1 ⟨0, 0⟩ 0 = true :=
  (checkStakeKernelHash_accept_iff (fun _ => 0) (fun _ => (1, false, false))
      (.root ⟨0, 0, 0, 0, 0⟩) 0 0 1 ⟨0, 0⟩ 0 1 (by decide) rfl (by decide)
      (by decide)).mpr (by decide)

/-- C3 counterexample to the claim as stated: all preconditions pass and the
digest (value 1) is below the mathematical product of the decoded target
2 ^ 248 and the amount 256, yet CheckStakeKernelHash rejects, because the
arith_uint256 product wraps to zero modulo 2 ^ 256. -/
theorem checkStakeKernelHash_product_overflow_cex :
    CheckStakeKernelHash (fun _ => 1) (fun _ => ((2 : Nat) ^ 248, false, false))
      (.root ⟨0, 0, 0, 0, 0⟩) 0 0 256 ⟨0, 0⟩ 0 = false ∧
    (1 : Nat) ≤ 2 ^ 248 * 256 ∧ ((2 : Nat) ^ 248 ≠ 0) ∧ ((256 : Int) ≠ 0) ∧
    ¬ (0 : Nat) < 0 := by
  refine ⟨rfl, ?_, by decide, by decide, by decide⟩
  exact Nat.one_le_iff_ne_zero.mpr (by positivity)

/-- C4: CheckProofOfStake accepts exactly when the transaction is a
coinstake, the first input's coin is in the view, the coin is mature at
parent height + 1, the script verifies and the kernel hash check passes; a
missing coin, immaturity or a script failure is flagged with DoS score 100,
a kernel-hash failure with DoS score 1. -/
theorem checkProofOfStake_spec (H : List Nat → Nat)
    (setCompact : Nat → Nat × Bool × Bool) (params : ConsensusParams)
    (verifyScript : CTxIn → CTransaction → Coin → Bool)
    (pindexPrev : CBlockIndex) (tx : CTransaction) (nBits nTimeBlock : Nat)
    (view : COutPoint → Option Coin) :
    (CheckProofOfStake H setCompact params verifyScript pindexPrev tx nBits
        nTimeBlock view = (true, 0) ↔
      tx.isCoinStake = true ∧ ∃ coinPrev,
        view tx.vin0.prevout = some coinPrev ∧
        ¬ pindexPrev.nHeight + 1 - coinPrev.nHeight <
            params.nStakeMinConfirmations ∧
        verifyScript tx.vin0 tx coinPrev = true ∧
        CheckStakeKernelHash H setCompact pindexPrev nBits coinPrev.nTime
          coinPrev.outValue tx.vin0.prevout nTimeBlock = true) ∧
    (tx.isCoinStake = true → view tx.vin0.prevout = none →
      CheckProofOfStake H setCompact params verifyScript pindexPrev tx nBits
        nTimeBlock view = (false, 100)) ∧
    (∀ coinPrev, tx.isCoinStake = true →
      view tx.vin0.prevout = some coinPrev →
      pindexPrev.nHeight + 1 - coinPrev.nHeight <
          params.nStakeMinConfirmations →
      CheckProofOfStake H setCompact params verifyScript pindexPrev tx nBits
        nTimeBlock view = (false, 100)) ∧
    (∀ coinPrev, tx.isCoinStake = true →
      view tx.vin0.prevout = some coinPrev →
      ¬ pindexPrev.nHeight + 1 - coinPrev.nHeight <
          params.nStakeMinConfirmations →
      verifyScript tx.vin0 tx coinPrev = false →
      CheckProofOfStake H setCompact params verifyScript pindexPrev tx nBits
        nTimeBlock view = (false, 100)) ∧
    (∀ coinPrev, tx.isCoinStake = true →
      view tx.vin0.prevout = some coinPrev →
      ¬ pindexPrev.nHeight + 1 - coinPrev.nHeight <
          params.nStakeMinConfirmations →
      verifyScript tx.vin0 tx coinPrev = true →
      CheckStakeKernelHash H setCompact pindexPrev nBits coinPrev.nTime
        coinPrev.outValue tx.vin0.prevout nTimeBlock = false →
      CheckProofOfStake H setCompact params verifyScript pindexPrev tx nBits
        nTimeBlock view = (false, 1)) := by
  refine ⟨?_, ?_, ?_, ?_, ?_⟩
  · constructor
    · intro hacc
      cases hcs : tx.isCoinStake with
      | false => simp [CheckProofOfStake, hcs] at hacc
      | true =>
        cases hview : view tx.vin0.prevout with
        | none => simp [CheckProofOfStake, hcs, hview] at hacc
        | some coinPrev =>
          by_cases hmat : pindexPrev.nHeight + 1 - coinPrev.nHeight <
              params.nStakeMinConfirmations
          · simp [CheckProofOfStake, hcs, hview, hmat] at hacc
          · cases hscript : verifyScript tx.vin0 tx coinPrev with
            | false =>
              simp [CheckProofOfStake, hcs, hview, hmat, hscript] at hacc
            | true =>
              cases hkernel : CheckStakeKernelHash H setCompact pindexPrev
                  nBits coinPrev.nTime coinPrev.outValue tx.vin0.prevout
                  nTimeBlock with
              | false =>
                simp [CheckProofOfStake, hcs, hview, hmat, hscript,
                  hkernel] at hacc
              | true => exact ⟨rfl, coinPrev, rfl, hmat, hscript, hkernel⟩
    · rintro ⟨hcs, coinPrev, hview, hmat, hscript, hkernel⟩
      unfold CheckProofOfStake
      simp [hcs, hview, hmat, hscript, hkernel]
  · intro hcs hview
    unfold CheckProofOfStake
    simp [hcs, hview]
  · intro coinPrev hcs hview hmat
    unfold CheckProofOfStake
    simp [hcs, hview, hmat]
  · intro coinPrev hcs hview hmat hscript
    unfold CheckProofOfStake
    simp [hcs, hview, hmat, hscript]
  · intro coinPrev hcs hview hmat hscript hkernel
    unfold CheckProofOfStake
    simp [hcs, hview, hmat, hscript, hkernel]

/-- C6: the maturity guard accepts exactly when parent height + 1 minus the
coin's creation height reaches nStakeMinConfirmations: CheckProofOfStake
rejects below the bound (and in particular at one confirmation fewer) and
passes maturity at or above it (in particular at exactly the bound), the
cache-miss path of CheckKernel rejects below the bound, and CacheKernel
inserts nothing below the bound. -/
theorem stakeMinConfirmations_spec (H : List Nat → Nat)
    (setCompact : Nat → Nat × Bool × Bool) (params : ConsensusParams)
    (verifyScript : CTxIn → CTransaction → Coin → Bool)
    (pindexPrev : CBlockIndex) (tx : CTransaction)
    (nBits nTimeBlock nTime : Nat) (view : COutPoint → Option Coin)
    (prevout : COutPoint) (cache : List (COutPoint × CStakeCache))
    (coinPrev : Coin) :
    (tx.isCoinStake = true → view tx.vin0.prevout = some coinPrev →
      pindexPrev.nHeight + 1 - coinPrev.nHeight <
          params.nStakeMinConfirmations →
      CheckProofOfStake H setCompact params verifyScript pindexPrev tx nBits
        nTimeBlock view = (false, 100)) ∧
    (tx.isCoinStake = true → view tx.vin0.prevout = some coinPrev →
      params.nStakeMinConfirmations ≤
          pindexPrev.nHeight + 1 - coinPrev.nHeight →
      CheckProofOfStake H setCompact params verifyScript pindexPrev tx nBits
          nTimeBlock view =
        (if verifyScript tx.vin0 tx coinPrev then
          (if CheckStakeKernelHash H setCompact pindexPrev nBits coinPrev.nTime
              coinPrev.outValue tx.vin0.prevout nTimeBlock then (true, 0)
            else (false, 1))
          else (false, 100))) ∧
    (tx.isCoinStake = true → view tx.vin0.prevout = some coinPrev →
      pindexPrev.nHeight + 1 - coinPrev.nHeight =
          params.nStakeMinConfirmations - 1 →
      CheckProofOfStake H setCompact params verifyScript pindexPrev tx nBits
        nTimeBlock view = (false, 100)) ∧
    (tx.isCoinStake = true → view tx.vin0.prevout = some coinPrev →
      pindexPrev.nHeight + 1 - coinPrev.nHeight =
          params.nStakeMinConfirmations →
      CheckProofOfStake H setCompact params verifyScript pindexPrev tx nBits
          nTimeBlock view =
        (if verifyScript tx.vin0 tx coinPrev then
          (if CheckStakeKernelHash H setCompact pindexPrev nBits coinPrev.nTime
              coinPrev.outValue tx.vin0.prevout nTimeBlock then (true, 0)
            else (false, 1))
          else (false, 100))) ∧
    (view prevout = some coinPrev →
      pindexPrev.nHeight + 1 - coinPrev.nHeight <
          params.nStakeMinConfirmations →
      CheckKernelMiss H setCompact params view pindexPrev nBits nTime
        prevout = false) ∧
    (view prevout = some coinPrev →
      pindexPrev.nHeight + 1 - coinPrev.nHeight <
          params.nStakeMinConfirmations →
      CacheKernel params cache prevout pindexPrev view = cache) := by
  have pass : tx.isCoinStake = true → view tx.vin0.prevout = some coinPrev →
      params.nStakeMinConfirmations ≤
          pindexPrev.nHeight + 1 - coinPrev.nHeight →
      CheckProofOfStake H setCompact params verifyScript pindexPrev tx nBits
          nTimeBlock view =
        (if verifyScript tx.vin0 tx coinPrev then
          (if CheckStakeKernelHash H setCompact pindexPrev nBits coinPrev.nTime
              coinPrev.outValue tx.vin0.prevout nTimeBlock then (true, 0)
            else (false, 1))
          else (false, 100)) := by
    intro hcs hview hge
    have hmat := not_lt.mpr hge
    cases hscript : verifyScript tx.vin0 tx coinPrev <;>
      cases hkernel : CheckStakeKernelHash H setCompact pindexPrev nBits
          coinPrev.nTime coinPrev.outValue tx.vin0.prevout nTimeBlock <;>
        simp [CheckProofOfStake, hcs, hview, hmat, hscript, hkernel]
  refine ⟨?_, pass, ?_, ?_, ?_, ?_⟩
  · intro hcs hview hmat
    simp [CheckProofOfStake, hcs, hview, hmat]
  · intro hcs hview heq
    have hmat : pindexPrev.nHeight + 1 - coinPrev.nHeight <
        params.nStakeMinConfirmations := by rw [heq]; exact sub_one_lt _
    simp [CheckProofOfStake, hcs, hview, hmat]
  · intro hcs hview heq
    exact pass hcs hview (le_of_eq heq.symm)
  · intro hview hmat
    simp [CheckKernelMiss, hview, hmat]
  · intro hview hmat
    cases hlk : lookupCache cache prevout <;>
      simp [CacheKernel, hlk, hview, hmat]

/-- C10: CacheKernel leaves the cache untouched when the key is already
present or when the coin lookup, the maturity check or the ancestor
resolution fails; on full success it appends exactly the (creation-block
timestamp, amount) entry for the outpoint; and every pre-existing entry
survives unchanged. -/
theorem cacheKernel_spec (params : ConsensusParams)
    (cache : List (COutPoint × CStakeCache)) (prevout : COutPoint)
    (pindexPrev : CBlockIndex) (view : COutPoint → Option Coin) :
    (∀ e, lookupCache cache prevout = some e →
      CacheKernel params cache prevout pindexPrev view = cache) ∧
    (view prevout = none →
      CacheKernel params cache prevout pindexPrev view = cache) ∧
    (∀ coinPrev, view prevout = some coinPrev →
      pindexPrev.nHeight + 1 - coinPrev.nHeight <
          params.nStakeMinConfirmations →
      CacheKernel params cache prevout pindexPrev view = cache) ∧
    (∀ coinPrev, view prevout = some coinPrev →
      pindexPrev.GetAncestor coinPrev.nHeight = none →
      CacheKernel params cache prevout pindexPrev view = cache) ∧
    (∀ coinPrev blockFrom, lookupCache cache prevout = none →
      view prevout = some coinPrev →
      ¬ pindexPrev.nHeight + 1 - coinPrev.nHeight <
          params.nStakeMinConfirmations →
      pindexPrev.GetAncestor coinPrev.nHeight = some blockFrom →
      CacheKernel params cache prevout pindexPrev view =
        cache ++ [(prevout, ⟨blockFrom.nTime, coinPrev.outValue⟩)]) ∧
    (∀ k v, lookupCache cache k = some v →
      lookupCache (CacheKernel params cache prevout pindexPrev view) k =
        some v) := by
  refine ⟨?_, ?_, ?_, ?_, ?_, ?_⟩
  · intro e he
    simp [CacheKernel, he]
  · intro hv
    cases hlk : lookupCache cache prevout <;> simp [CacheKernel, hlk, hv]
  · intro coinPrev hv hmat
    cases hlk : lookupCache cache prevout <;>
      simp [CacheKernel, hlk, hv, hmat]
  · intro coinPrev hv ha
    cases hlk : lookupCache cache prevout
    · by_cases hmat : pindexPrev.nHeight + 1 - coinPrev.nHeight <
          params.nStakeMinConfirmations
      · simp [CacheKernel, hlk, hv, hmat]
      · simp [CacheKernel, hlk, hv, hmat, ha]
    · simp [CacheKernel, hlk]
  · intro coinPrev blockFrom hlk hv hmat ha
    simp [CacheKernel, hlk, hv, hmat, ha]
  · intro k v hkv
    cases hlk : lookupCache cache prevout
    · cases hv : view prevout with
      | none => simpa [CacheKernel, hlk, hv] using hkv
      | some coinPrev =>
        by_cases hmat : pindexPrev.nHeight + 1 - coinPrev.nHeight <
            params.nStakeMinConfirmations
        · simpa [CacheKernel, hlk, hv, hmat] using hkv
        · cases ha : pindexPrev.GetAncestor coinPrev.nHeight with
          | none => simpa [CacheKernel, hlk, hv, hmat, ha] using hkv
          | some blockFrom =>
            have hck : CacheKernel params cache prevout pindexPrev view =
                cache ++ [(prevout, ⟨blockFrom.nTime, coinPrev.outValue⟩)] := by
              simp [CacheKernel, hlk, hv, hmat, ha]
            rw [hck]
            exact lookupCache_append_of_some _ hkv
    · simpa [CacheKernel, hlk] using hkv

/-- Depth-indexed form of the IsConfirmedInNPrevBlocks walk: it counts the
parent links followed instead of subtracting heights, which coincides with
the height subtraction on chains whose heights decrease by one per link. -/
def scanDepths (txindex : CDiskTxPos) (nMaxDepth : Int) :
    CBlockIndex → Nat → Option Int
  | .root d, c =>
    if (c : Int) < nMaxDepth then
      if d.nDataPos = txindex.nPos ∧ d.nFile = txindex.nFile then some (c : Int)
      else none
    else none
  | .link d p, c =>
    if (c : Int) < nMaxDepth then
      if d.nDataPos = txindex.nPos ∧ d.nFile = txindex.nFile then some (c : Int)
      else scanDepths txindex nMaxDepth p (c + 1)
    else none

/-- On a well-formed chain the source's height-subtracting walk agrees with
the depth-indexed walk. -/
theorem confirmedScan_eq_scanDepths (txindex : CDiskTxPos) (nMaxDepth : Int) :
    ∀ (b : CBlockIndex), wfChain b = true → ∀ (c : Nat) (fromHeight : Int),
      fromHeight = b.nHeight + c →
      confirmedScan txindex fromHeight nMaxDepth b =
        scanDepths txindex nMaxDepth b c := by
  intro b
  induction b with
  | root d =>
    intro _ c fromHeight hfh
    have hsub : fromHeight - d.nHeight = (c : Int) := by
      simp [CBlockIndex.nHeight, CBlockIndex.data] at hfh
      omega
    simp [confirmedScan, scanDepths, hsub]
  | link d p ih =>
    intro hwf c fromHeight hfh
    have hw : d.nHeight = p.nHeight + 1 ∧ wfChain p = true := by
      simpa [wfChain] using hwf
    have hsub : fromHeight - d.nHeight = (c : Int) := by
      simp [CBlockIndex.nHeight, CBlockIndex.data] at hfh
      omega
    have hrec := ih hw.2 (c + 1) fromHeight (by
      simp only [CBlockIndex.nHeight, CBlockIndex.data] at hfh
      rw [hfh, hw.1]
      push_cast
      ring)
    simp [confirmedScan, scanDepths, hsub, hrec]

/-- A successful depth-indexed walk returns the first matching depth: the
depth is in the window, the ancestor at that relative depth matches, and no
shallower ancestor does. -/
theorem scanDepths_some_spec (txindex : CDiskTxPos) (nMaxDepth : Int) :
    ∀ (b : CBlockIndex) (c : Nat) (dep : Int),
      scanDepths txindex nMaxDepth b c = some dep →
      ∃ k : Nat, dep = ((c + k : Nat) : Int) ∧
        ((c + k : Nat) : Int) < nMaxDepth ∧
        (∃ bb, ancestorAtDepth b k = some bb ∧
          bb.nDataPos = txindex.nPos ∧ bb.nFile = txindex.nFile) ∧
        ∀ j : Nat, j < k → ∀ bb, ancestorAtDepth b j = some bb →
          ¬(bb.nDataPos = txindex.nPos ∧ bb.nFile = txindex.nFile) := by
  intro b
  induction b with
  | root d =>
    intro c dep h
    by_cases hc : (c : Int) < nMaxDepth
    · by_cases hm : d.nDataPos = txindex.nPos ∧ d.nFile = txindex.nFile
      · refine ⟨0, ?_, ?_, ⟨.root d, rfl, ?_⟩, ?_⟩
        · have : dep = (c : Int) := by simpa [scanDepths, hc, hm] using h.symm
          simpa using this
        · simpa using hc
        · simpa [CBlockIndex.nDataPos, CBlockIndex.nFile, CBlockIndex.data]
            using hm
        · intro j hj
          omega
      · simp [scanDepths, hc, hm] at h
    · simp [scanDepths, hc] at h
  | link d p ih =>
    intro c dep h
    by_cases hc : (c : Int) < nMaxDepth
    · by_cases hm : d.nDataPos = txindex.nPos ∧ d.nFile = txindex.nFile
      · refine ⟨0, ?_, ?_, ⟨.link d p, rfl, ?_⟩, ?_⟩
        · have : dep = (c : Int) := by simpa [scanDepths, hc, hm] using h.symm
          simpa using this
        · simpa using hc
        · simpa [CBlockIndex.nDataPos, CBlockIndex.nFile, CBlockIndex.data]
            using hm
        · intro j hj
          omega
      · have hrec : scanDepths txindex nMaxDepth p (c + 1) = some dep := by
          simpa [scanDepths, hc, hm] using h
        obtain ⟨k, hdep, hlt, ⟨bb, hb, hbm⟩, hmin⟩ := ih (c + 1) dep hrec
        refine ⟨k + 1, ?_, ?_, ⟨bb, by simpa [ancestorAtDepth] using hb, hbm⟩,
          ?_⟩
        · rw [hdep]; congr 1; omega
        · have : ((c + (k + 1) : Nat) : Int) = ((c + 1 + k : Nat) : Int) := by
            congr 1; omega
          rw [this]; exact hlt
        · intro j hj bb' hb'
          match j, hb' with
          | 0, hb' =>
            have hbb : CBlockIndex.link d p = bb' := by
              simpa [ancestorAtDepth] using hb'
            subst hbb
            simpa [CBlockIndex.nDataPos, CBlockIndex.nFile, CBlockIndex.data]
              using hm
          | j' + 1, hb' =>
            exact hmin j' (by omega) bb' (by simpa [ancestorAtDepth] using hb')
    · simp [scanDepths, hc] at h

/-- When no ancestor in the window matches, the depth-indexed walk fails. -/
theorem scanDepths_none_spec (txindex : CDiskTxPos) (nMaxDepth : Int) :
    ∀ (b : CBlockIndex) (c : Nat),
      (∀ k : Nat, ((c + k : Nat) : Int) < nMaxDepth →
        ∀ bb, ancestorAtDepth b k = some bb →
          ¬(bb.nDataPos = txindex.nPos ∧ bb.nFile = txindex.nFile)) →
      scanDepths txindex nMaxDepth b c = none := by
  intro b
  induction b with
  | root d =>
    intro c hnone
    by_cases hc : (c : Int) < nMaxDepth
    · have hm := hnone 0 (by simpa using hc) (.root d) rfl
      simp only [CBlockIndex.nDataPos, CBlockIndex.nFile, CBlockIndex.data]
        at hm
      simp [scanDepths, hc, hm]
    · simp [scanDepths, hc]
  | link d p ih =>
    intro c hnone
    by_cases hc : (c : Int) < nMaxDepth
    · have hm := hnone 0 (by simpa using hc) (.link d p) rfl
      simp only [CBlockIndex.nDataPos, CBlockIndex.nFile, CBlockIndex.data]
        at hm
      have hrec := ih (c + 1) (fun k hk bb hb => by
        refine hnone (k + 1) ?_ bb (by simpa [ancestorAtDepth] using hb)
        have : ((c + (k + 1) : Nat) : Int) = ((c + 1 + k : Nat) : Int) := by
          congr 1; omega
        rw [this]; exact hk)
      simp [scanDepths, hc, hm, hrec]
    · simp [scanDepths, hc]

/-- Completeness of the depth-indexed walk: when the ancestor k links down is
inside the window and matches while every shallower ancestor does not, the
walk returns exactly that depth. -/
theorem scanDepths_complete (txindex : CDiskTxPos) (nMaxDepth : Int) :
    ∀ (b : CBlockIndex) (c k : Nat),
      ((c + k : Nat) : Int) < nMaxDepth →
      (∃ bb, ancestorAtDepth b k = some bb ∧
        bb.nDataPos = txindex.nPos ∧ bb.nFile = txindex.nFile) →
      (∀ j : Nat, j < k → ∀ bb, ancestorAtDepth b j = some bb →
        ¬(bb.nDataPos = txindex.nPos ∧ bb.nFile = txindex.nFile)) →
      scanDepths txindex nMaxDepth b c = some ((c + k : Nat) : Int) := by
  intro b
  induction b with
  | root d =>
    intro c k hw hex hmin
    obtain ⟨bb, hb, hbm⟩ := hex
    match k, hb with
    | 0, hb =>
      have hbb : CBlockIndex.root d = bb := by
        simpa [ancestorAtDepth] using hb
      subst hbb
      have hm : d.nDataPos = txindex.nPos ∧ d.nFile = txindex.nFile := by
        simpa [CBlockIndex.nDataPos, CBlockIndex.nFile, CBlockIndex.data]
          using hbm
      have hc : (c : Int) < nMaxDepth := by simpa using hw
      simp [scanDepths, hc, hm]
    | k' + 1, hb => simp [ancestorAtDepth] at hb
  | link d p ih =>
    intro c k hw hex hmin
    obtain ⟨bb, hb, hbm⟩ := hex
    match k, hb with
    | 0, hb =>
      have hbb : CBlockIndex.link d p = bb := by
        simpa [ancestorAtDepth] using hb
      subst hbb
      have hm : d.nDataPos = txindex.nPos ∧ d.nFile = txindex.nFile := by
        simpa [CBlockIndex.nDataPos, CBlockIndex.nFile, CBlockIndex.data]
          using hbm
      have hc : (c : Int) < nMaxDepth := by simpa using hw
      simp [scanDepths, hc, hm]
    | k' + 1, hb =>
      have hm : ¬(d.nDataPos = txindex.nPos ∧ d.nFile = txindex.nFile) := by
        have h0 := hmin 0 (by omega) (.link d p) rfl
        simpa [CBlockIndex.nDataPos, CBlockIndex.nFile, CBlockIndex.data]
          using h0
      have hc : (c : Int) < nMaxDepth := by
        have hw2 : ((c + (k' + 1) : Nat) : Int) < nMaxDepth := hw
        push_cast at hw2
        omega
      have hw' : ((c + 1 + k' : Nat) : Int) < nMaxDepth := by
        have hcast : ((c + 1 + k' : Nat) : Int) =
            ((c + (k' + 1) : Nat) : Int) := by
          congr 1; omega
        rw [hcast]; exact hw
      have hrec := ih (c + 1) k' hw'
        ⟨bb, by simpa [ancestorAtDepth] using hb, hbm⟩
        (fun j hj bb' hb' =>
          hmin (j + 1) (by omega) bb' (by simpa [ancestorAtDepth] using hb'))
      have hgoal : scanDepths txindex nMaxDepth (CBlockIndex.link d p) c =
          scanDepths txindex nMaxDepth p (c + 1) := by
        simp [scanDepths, hc, hm]
      rw [hgoal, hrec]
      congr 1
      push_cast
      ring

/-- C9 (amended): on a chain with well-formed heights and a positive window,
IsConfirmedInNPrevBlocks returns depth 0 when the start block's own position
matches; any returned depth is the depth of the shallowest matching ancestor
inside the window; it returns none when no ancestor inside the window
matches; and whenever the shallowest matching ancestor inside the window
sits k links down, it does return depth k. -/
theorem isConfirmedInNPrevBlocks_spec (txindex : CDiskTxPos)
    (b : CBlockIndex) (nMaxDepth : Int) (hwf : wfChain b = true) :
    (0 < nMaxDepth → b.nDataPos = txindex.nPos → b.nFile = txindex.nFile →
      IsConfirmedInNPrevBlocks txindex b nMaxDepth = some 0) ∧
    (∀ dep, IsConfirmedInNPrevBlocks txindex b nMaxDepth = some dep →
      ∃ k : Nat, dep = (k : Int) ∧ (k : Int) < nMaxDepth ∧
        (∃ bb, ancestorAtDepth b k = some bb ∧
          bb.nDataPos = txindex.nPos ∧ bb.nFile = txindex.nFile) ∧
        ∀ j : Nat, j < k → ∀ bb, ancestorAtDepth b j = some bb →
          ¬(bb.nDataPos = txindex.nPos ∧ bb.nFile = txindex.nFile)) ∧
    ((∀ k : Nat, (k : Int) < nMaxDepth →
        ∀ bb, ancestorAtDepth b k = some bb →
          ¬(bb.nDataPos = txindex.nPos ∧ bb.nFile = txindex.nFile)) →
      IsConfirmedInNPrevBlocks txindex b nMaxDepth = none) ∧
    (∀ k : Nat, (k : Int) < nMaxDepth →
      (∃ bb, ancestorAtDepth b k = some bb ∧
        bb.nDataPos = txindex.nPos ∧ bb.nFile = txindex.nFile) →
      (∀ j : Nat, j < k → ∀ bb, ancestorAtDepth b j = some bb →
        ¬(bb.nDataPos = txindex.nPos ∧ bb.nFile = txindex.nFile)) →
      IsConfirmedInNPrevBlocks txindex b nMaxDepth = some (k : Int)) := by
  have heq : IsConfirmedInNPrevBlocks txindex b nMaxDepth =
      scanDepths txindex nMaxDepth b 0 := by
    unfold IsConfirmedInNPrevBlocks
    exact confirmedScan_eq_scanDepths txindex nMaxDepth b hwf 0 b.nHeight
      (by simp)
  refine ⟨?_, ?_, ?_, ?_⟩
  · intro hpos hp hf
    rw [heq]
    cases b with
    | root d =>
      simp only [CBlockIndex.nDataPos, CBlockIndex.nFile, CBlockIndex.data]
        at hp hf
      simp [scanDepths, hpos, hp, hf]
    | link d p =>
      simp only [CBlockIndex.nDataPos, CBlockIndex.nFile, CBlockIndex.data]
        at hp hf
      simp [scanDepths, hpos, hp, hf]
  · intro dep h
    rw [heq] at h
    obtain ⟨k, h1, h2, h3, h4⟩ :=
      scanDepths_some_spec txindex nMaxDepth b 0 dep h
    exact ⟨k, by simpa using h1, by simpa using h2, h3, h4⟩
  · intro hnone
    rw [heq]
    exact scanDepths_none_spec txindex nMaxDepth b 0
      (fun k hk => hnone k (by simpa using hk))
  · intro k hk hex hmin
    rw [heq]
    have hres := scanDepths_complete txindex nMaxDepth b 0 k
      (by simpa using hk) hex hmin
    simpa using hres

/-- Witness for isConfirmedInNPrevBlocks_spec on a two-block chain whose tip
position matches the queried position. -/
theorem isConfirmedInNPrevBlocks_spec_witness :
    wfChain (.link ⟨1, 0, 0, 7, 3⟩ (.root ⟨0, 0, 0, 9, 4⟩)) = true ∧
    IsConfirmedInNPrevBlocks ⟨3, 7⟩
      (.link ⟨1, 0, 0, 7, 3⟩ (.root ⟨0, 0, 0, 9, 4⟩)) 1 = some 0 :=
  ⟨by decide,
    (isConfirmedInNPrevBlocks_spec ⟨3, 7⟩
      (.link ⟨1, 0, 0, 7, 3⟩ (.root ⟨0, 0, 0, 9, 4⟩)) 1 (by decide)).1
      (by decide) rfl rfl⟩

/-- C9 counterexample to the claim as stated: with a zero depth window the
walk inspects no block at all, so a start block whose own recorded position
equals the queried position is still reported unmatched. -/
theorem isConfirmedInNPrevBlocks_cex :
    (CBlockIndex.root ⟨0, 0, 0, 7, 3⟩).nDataPos = (⟨3, 7⟩ : CDiskTxPos).nPos ∧
    (CBlockIndex.root ⟨0, 0, 0, 7, 3⟩).nFile = (⟨3, 7⟩ : CDiskTxPos).nFile ∧
    IsConfirmedInNPrevBlocks ⟨3, 7⟩ (CBlockIndex.root ⟨0, 0, 0, 7, 3⟩) 0 =
      none :=
  ⟨rfl, rfl, rfl⟩
